import Mathlib

/-! Verification of the BitaxePID repository against its specification.

Python floats are modelled as rationals (ℚ); `float('inf')` is modelled by
`⊤ : WithTop ℚ`.  Python's builtin `round` (round-half-to-even) is modelled
by `pyRound`.  The external `simple_pid.PID` objects are oracles: their
outputs (`pid_freq(hashrate)`, `pid_volt(hashrate)`) enter the decision
functions as explicit arguments, and a call to `reset()` on them is modelled
by a boolean field in the result.
-/

namespace BitaxePID

/-- Python's builtin `round` on a rational value: round half to even. -/
def pyRound (q : ℚ) : ℤ :=
  let f : ℤ := ⌊q⌋
  let frac : ℚ := q - f
  if frac < 1/2 then f
  else if 1/2 < frac then f + 1
  else if f % 2 = 0 then f else f + 1

/-- Predicate: `x` is an integer multiple of the step `s`. -/
def Mult (s x : ℚ) : Prop := ∃ k : ℤ, x = k * s

/-- Envelope and targets of `PIDTuningStrategy.__init__`
(src/bitaxepid.py lines 152-191, src/implementations.py lines 555-609). -/
structure PidParams where
  minVoltage : ℚ
  maxVoltage : ℚ
  minFrequency : ℚ
  maxFrequency : ℚ
  voltageStep : ℚ
  frequencyStep : ℚ
  setpoint : ℚ
  targetTemp : ℚ
  powerLimit : ℚ
deriving DecidableEq, Repr

/-- Mutable trend state of `PIDTuningStrategy`
(`last_hashrate`, `stagnation_count`, `drop_count`). -/
structure PidState where
  lastHashrate : Option ℚ
  stagnationCount : ℕ
  dropCount : ℕ
deriving DecidableEq, Repr

/-- Initial state set by `PIDTuningStrategy.__init__`:
`last_hashrate = None`, `stagnation_count = 0`, `drop_count = 0`. -/
def pidInitState : PidState := ⟨none, 0, 0⟩

/-- The quantize-then-clamp pattern used throughout the repository:
`round(q / step) * step` clamped to `[lo, hi]`
(`max(lo, min(hi, ...))`). -/
def quantClamp (lo hi step q : ℚ) : ℚ :=
  max lo (min hi ((pyRound (q / step) : ℚ) * step))

/-- The branch logic of `PIDTuningStrategy.adjust` (src/bitaxepid.py lines
227-256, identical in `apply_strategy`, src/implementations.py lines
650-678), as a function of the already-updated `drop_count` and the
already-quantized PID proposals.  The voltage component of the hashrate
branch flattens the sequential Python assignments: the
frequency-at-ceiling boost (lines 252-254) overwrites the recovery boost
(lines 247-249) and both test the input `current_voltage`. -/
def pidAdjustPair (p : PidParams) (dropCount : ℕ)
    (proposedVoltage proposedFrequency : ℚ)
    (currentVoltage currentFrequency temp hashrate power : ℚ) : ℚ × ℚ :=
  if p.targetTemp < temp then
    if p.minFrequency < currentFrequency then
      (currentVoltage, currentFrequency - p.frequencyStep)
    else if p.minVoltage < currentVoltage then
      (currentVoltage - p.voltageStep, currentFrequency)
    else
      (currentVoltage, currentFrequency)
  else if p.powerLimit * (1075/1000) < power then
    (if p.minVoltage < currentVoltage then currentVoltage - p.voltageStep
     else currentVoltage, currentFrequency)
  else if hashrate < p.setpoint then
    if 30 ≤ dropCount ∧ p.minFrequency < currentFrequency then
      (currentVoltage, currentFrequency - p.frequencyStep)
    else
      (if p.maxFrequency ≤ currentFrequency ∧ currentVoltage < p.maxVoltage then
         currentVoltage + p.voltageStep
       else if hashrate < (85/100) * p.setpoint ∧ currentVoltage < p.maxVoltage then
         min proposedVoltage (currentVoltage + p.voltageStep)
       else currentVoltage,
       proposedFrequency)
  else
    (currentVoltage, currentFrequency)

/-- Embeds `PIDTuningStrategy.adjust` (src/bitaxepid.py lines 193-259).
`PIDTuningStrategy.apply_strategy` (src/implementations.py lines 611-681)
has the identical decision logic, so this definition embeds both.
`freqOutput` and `voltOutput` are the oracle outputs of the two external
PID controllers (`self.pid_freq(hashrate)`, `self.pid_volt(hashrate)`).
Neither method ever calls `reset()` on the PID controllers.
Returns (updated state, (new_voltage, new_frequency)). -/
def pidAdjust (p : PidParams) (s : PidState) (freqOutput voltOutput : ℚ)
    (currentVoltage currentFrequency temp hashrate power : ℚ) :
    PidState × ℚ × ℚ :=
  let proposedFrequency :=
    quantClamp p.minFrequency p.maxFrequency p.frequencyStep freqOutput
  let proposedVoltage :=
    quantClamp p.minVoltage p.maxVoltage p.voltageStep voltOutput
  -- `hashrate_dropped = self.last_hashrate is not None and hashrate < self.last_hashrate`
  let hashrateDropped : Bool :=
    match s.lastHashrate with
    | some h => decide (hashrate < h)
    | none => false
  -- `stagnated = self.last_hashrate == hashrate` (`None == h` is `False` in Python)
  let stagnated := s.lastHashrate = some hashrate
  let dropCount := if hashrateDropped then s.dropCount + 1 else 0
  let stagnationCount := if stagnated then s.stagnationCount + 1 else 0
  (⟨some hashrate, stagnationCount, dropCount⟩,
    pidAdjustPair p dropCount proposedVoltage proposedFrequency
      currentVoltage currentFrequency temp hashrate power)

/-! Constants of src/bitaxe.py `DEFAULTS` that `_adjust_normal_mode` and
`set_system_settings` read directly. -/

def bxMinVoltage : ℚ := 1100
def bxMaxVoltage : ℚ := 2400
def bxMinFrequency : ℚ := 400
def bxMaxFrequency : ℚ := 550
def bxVoltageStep : ℚ := 10
def bxFrequencyStep : ℚ := 25

/-- Result of one `BitaxeTuner._adjust_normal_mode` step: whether the PID
controllers were reset, the updated global counters, and the updated
current voltage/frequency. -/
structure BxAdjustResult where
  pidWasReset : Bool
  stagnationCount : ℕ
  dropCount : ℕ
  voltage : ℚ
  frequency : ℚ
deriving DecidableEq, Repr

/-- The constraint/optimization branch logic of
`BitaxeTuner._adjust_normal_mode` (src/bitaxe.py lines 431-476): the power
check runs before the temperature check inside the combined constraint
branch; the hashrate branch mutates `self.current_voltage` and
`self.current_frequency` sequentially, so later tests read the updated
values. -/
def bxAdjustPair (targetTemp powerLimit setpoint : ℚ) (dropCount : ℕ)
    (proposedVoltage proposedFrequency : ℚ)
    (currentVoltage currentFrequency temp hashrate power : ℚ) : ℚ × ℚ :=
  if temp > targetTemp ∨ power > powerLimit * (1075/1000) then
    if power > powerLimit * (1075/1000) ∧ bxMinVoltage < currentVoltage then
      (currentVoltage - bxVoltageStep, currentFrequency)
    else if temp > targetTemp then
      if bxMinFrequency < currentFrequency ∧ dropCount < 3 then
        (currentVoltage, currentFrequency - bxFrequencyStep)
      else if bxMinVoltage < currentVoltage then
        (currentVoltage - bxVoltageStep, currentFrequency)
      else
        (currentVoltage, currentFrequency)
    else
      (currentVoltage, currentFrequency)
  else if hashrate < setpoint then
    if 3 ≤ dropCount ∧ bxMinFrequency < currentFrequency then
      (currentVoltage, currentFrequency - bxFrequencyStep)
    else
      let v1 :=
        if hashrate < (85/100) * setpoint ∧ currentVoltage < bxMaxVoltage then
          min proposedVoltage (currentVoltage + bxVoltageStep)
        else currentVoltage
      let f1 := if 1150 ≤ v1 then proposedFrequency else currentFrequency
      let v2 :=
        if bxMaxFrequency ≤ f1 ∧ v1 < bxMaxVoltage then v1 + bxVoltageStep else v1
      (v2, f1)
  else
    (currentVoltage, currentFrequency)

/-- Embeds `BitaxeTuner._adjust_normal_mode` (src/bitaxe.py lines 401-479).
`lastHashrate`, `stagnationCount`, `dropCount` are the module globals on
entry (`last_hashrate` is updated by the caller `monitor_and_adjust` after
the step, line 374, not here).  `freqOutput`/`voltOutput` are the PID
oracle outputs.  `pidWasReset` records whether `pid_freq.reset()` and
`pid_volt.reset()` were called (lines 424-429); the branch logic neither
reads `stagnation_count` nor runs before the reset check, so it is
delegated to `bxAdjustPair`. -/
def adjustNormalMode (targetTemp powerLimit setpoint : ℚ)
    (lastHashrate : Option ℚ) (stagnationCount dropCount : ℕ)
    (freqOutput voltOutput : ℚ)
    (currentVoltage currentFrequency temp hashrate power : ℚ) :
    BxAdjustResult :=
  let proposedFrequency := quantClamp bxMinFrequency bxMaxFrequency bxFrequencyStep freqOutput
  let proposedVoltage := quantClamp bxMinVoltage bxMaxVoltage bxVoltageStep voltOutput
  let hashrateDropped : Bool :=
    match lastHashrate with
    | some h => decide (hashrate < h)
    | none => false
  let stagnated := lastHashrate = some hashrate
  let dropCount := if hashrateDropped then dropCount + 1 else 0
  let stagnationCount := if stagnated then stagnationCount + 1 else 0
  let pidWasReset : Bool := 3 ≤ stagnationCount
  let stagnationCount := if pidWasReset then 0 else stagnationCount
  let pair := bxAdjustPair targetTemp powerLimit setpoint dropCount
    proposedVoltage proposedFrequency
    currentVoltage currentFrequency temp hashrate power
  ⟨pidWasReset, stagnationCount, dropCount, pair.1, pair.2⟩

/-- Embeds `BitaxeAPI.set_settings` (src/bitaxepid.py lines 350-372).
The HTTP PATCH cannot influence the computed settings: the quantized and
clamped values are computed before the request and `frequency` is returned
on both the success and the exception path.  Returns
(voltage sent to the device, frequency sent to the device, returned frequency). -/
def setSettings (minVoltage maxVoltage minFrequency maxFrequency frequencyStep : ℚ)
    (voltage frequency : ℚ) : ℚ × ℚ × ℚ :=
  let frequency := (pyRound (frequency / frequencyStep) : ℚ) * frequencyStep
  let frequency := max minFrequency (min maxFrequency frequency)
  let voltage := max minVoltage (min maxVoltage voltage)
  (voltage, frequency, frequency)

/-- Embeds `BitaxeTuner.set_system_settings` (src/bitaxe.py lines 205-236):
the same quantize-then-clamp computation against the `DEFAULTS` constants;
the return value is likewise independent of the HTTP outcome. -/
def setSystemSettings (coreVoltage frequency : ℚ) : ℚ × ℚ × ℚ :=
  let frequency := (pyRound (frequency / bxFrequencyStep) : ℚ) * bxFrequencyStep
  let frequency := max bxMinFrequency (min bxMaxFrequency frequency)
  let coreVoltage := max bxMinVoltage (min bxMaxVoltage coreVoltage)
  (coreVoltage, frequency, frequency)

/-! ## Pools module (src/pools.py) -/

/-- Python's builtin `int(str)`: optional surrounding whitespace, optional
sign, then a nonempty digit string (digit-group underscores do not occur in
this repository's inputs and are not modelled).  `none` models the
`ValueError` raised on any other input. -/
def pyIntChars (l : List Char) : Option ℤ :=
  let t := ((l.dropWhile Char.isWhitespace).reverse.dropWhile Char.isWhitespace).reverse
  let signed : ℤ × List Char :=
    match t with
    | '-' :: r => (-1, r)
    | '+' :: r => (1, r)
    | r => (1, r)
  if signed.2 ≠ [] ∧ signed.2.all (fun c => c.isDigit) then
    some (signed.1 * (signed.2.foldl (fun acc c => acc * 10 + (c.toNat - 48)) 0 : ℕ))
  else none

/-- Python `int` applied to the text of a Lean string. -/
def pyInt (s : String) : Option ℤ := pyIntChars s.data

/-- The scheme-stripping step of `parse_endpoint` (src/pools.py lines 34-35):
only the literal prefix text `stratum+tcp://` (14 characters) is removed. -/
def dropSchemeChars (l : List Char) : List Char :=
  if "stratum+tcp://".data.isPrefixOf l then l.drop 14 else l

/-- The scheme-stripped endpoint string. -/
def schemeStripped (s : String) : String := String.mk (dropSchemeChars s.data)

/-- Test `":" in endpoint_str` after scheme stripping. -/
def hasColon (s : String) : Bool := (dropSchemeChars s.data).contains ':'

/-- First component of `endpoint_str.split(":", 1)`. -/
def hostPart (s : String) : String :=
  String.mk ((dropSchemeChars s.data).takeWhile (fun c => c ≠ ':'))

/-- Second component of `endpoint_str.split(":", 1)`. -/
def portPart (s : String) : String :=
  String.mk (((dropSchemeChars s.data).dropWhile (fun c => c ≠ ':')).drop 1)

/-- Embeds `parse_endpoint` (src/pools.py lines 21-39).  `none` models a
raised `ValueError`, either the explicit raise when no colon is present or
the failure of `int(port_str)`. -/
def parseEndpoint (s : String) : Option (String × ℤ) :=
  if hasColon s then
    (pyInt (portPart s)).map (fun n => (hostPart s, n))
  else none

/-- One catalog row of pools.yaml as read by `get_fastest_pools`:
`latency = none` models a missing "latency" key, `latency = some ⊤` a cached
`float('inf')`; `lastTested = none` models a missing or unparseable
"last_tested" string, `lastTested = some t` a string that `time.strptime`
parses to the timestamp `t` (seconds). -/
structure PoolRow where
  endpoint : String
  latency : Option (WithTop ℚ)
  lastTested : Option ℚ
deriving DecidableEq, Repr

/-- The contents of user.yaml: `none` models a missing key. -/
structure UserConfig where
  stratumUser : Option String
  fallbackStratumUser : Option String
deriving DecidableEq, Repr

/-- The cached latency lookup `pool.get("latency", float("inf"))`. -/
def latKey (r : PoolRow) : WithTop ℚ := r.latency.getD ⊤

/-- The filter predicate of line 263-265:
`pool.get("latency", float("inf")) != float("inf")`. -/
def isFiniteRow (r : PoolRow) : Bool := latKey r ≠ ⊤

/-- The staleness test of `get_fastest_pools` lines 232-255: a row needs
remeasurement when the "latency" key is missing, the "last_tested" value is
missing or unparseable, or more than `expiry` minutes have passed since it
was tested. -/
def isStale (now expiry : ℚ) (r : PoolRow) : Bool :=
  r.latency.isNone ||
    (match r.lastTested with
     | none => true
     | some t => decide (expiry < (now - t) / 60))

/-- The per-row effect of `measure_pools` (src/pools.py lines 141-170):
probe the parsed endpoint and overwrite "latency" and "last_tested"; a
`ValueError` from `parse_endpoint` records latency `inf`.  `probe` is the
oracle for `measure_latency`. -/
def measureRow (probe : String → ℤ → WithTop ℚ) (now : ℚ) (r : PoolRow) : PoolRow :=
  match parseEndpoint r.endpoint with
  | some (h, p) => { r with latency := some (probe h p), lastTested := some now }
  | none => { r with latency := some ⊤, lastTested := some now }

/-- Stable insertion of `x` into a list sorted ascending on `key`
(an element with an equal key is placed after the existing ones). -/
def insertK {α : Type _} {β : Type _} [LinearOrder β] (key : α → β) (x : α) :
    List α → List α
  | [] => [x]
  | h :: t => if key x < key h then x :: h :: t else h :: insertK key x t

/-- Stable sort ascending on `key`, modelling Python's stable `sorted`. -/
def sortK {α : Type _} {β : Type _} [LinearOrder β] (key : α → β) (l : List α) :
    List α :=
  l.foldl (fun acc x => insertK key x acc) []

/-- The credential-resolution of `get_fastest_pools` (src/pools.py lines
276-295): if either explicit user is absent, defaults are loaded from
user.yaml (`stratumUser`, else `""`; `fallbackStratumUser`, else the
`stratumUser` default); each explicitly supplied user wins over its
default. -/
def resolvedUsers (stratumUser fallbackStratumUser : Option String)
    (cfg : UserConfig) : String × String :=
  let defaults :=
    if stratumUser.isNone || fallbackStratumUser.isNone then
      let ds := cfg.stratumUser.getD ""
      (ds, cfg.fallbackStratumUser.getD ds)
    else (stratumUser.getD "", fallbackStratumUser.getD "")
  (stratumUser.getD defaults.1, fallbackStratumUser.getD defaults.2)

/-- The selection tail of `get_fastest_pools` (src/pools.py lines 263-306),
operating on the pool list in force after the optional remeasurement: keep
rows with finite cached latency, sort ascending by latency, take two,
duplicate the single row if only one is valid (`sorted_pools[0].copy()`),
then attach the resolved stratum users.  The function never rejects a
selection: it returns the rows with whatever users were resolved. -/
def selectPools (pools : List PoolRow) (stratumUser fallbackStratumUser : Option String)
    (cfg : UserConfig) : List (PoolRow × String) :=
  match (sortK latKey (pools.filter isFiniteRow)).take 2 with
  | [] => []
  | [x] => [(x, (resolvedUsers stratumUser fallbackStratumUser cfg).1),
            (x, (resolvedUsers stratumUser fallbackStratumUser cfg).2)]
  | x :: y :: _ => [(x, (resolvedUsers stratumUser fallbackStratumUser cfg).1),
                    (y, (resolvedUsers stratumUser fallbackStratumUser cfg).2)]

/-- Embeds `get_fastest_pools` (src/pools.py lines 205-306).  The first
component records whether `measure_pools` was invoked (i.e. whether the
prober ran); the rows are remeasured through the `probe` oracle exactly in
that case.  `force` is `force_measure`, `expiry` is
`latency_expiry_minutes`, `now` is `time.time()`. -/
def getFastestPools (probe : String → ℤ → WithTop ℚ) (now expiry : ℚ) (force : Bool)
    (rows : List PoolRow) (stratumUser fallbackStratumUser : Option String)
    (cfg : UserConfig) : Bool × List (PoolRow × String) :=
  let needMeasure := force || rows.any (fun r => isStale now expiry r)
  let pools := if needMeasure then rows.map (measureRow probe now) else rows
  (needMeasure, selectPools pools stratumUser fallbackStratumUser cfg)

/-- Python float averaging of two latency values: infinite if either
operand is infinite. -/
def avg2 (a b : WithTop ℚ) : WithTop ℚ :=
  if a = ⊤ ∨ b = ⊤ then ⊤ else ((a.untop' 0 + b.untop' 0) / 2 : ℚ)

/-- Embeds `statistics.median` as used on the latency list (src/pools.py line 113):
sort ascending, take the middle element for odd length, the mean of the two
middle elements for even length; `⊤` for the empty list models the
`if latencies else float("inf")` guard. -/
def pyMedian (l : List (WithTop ℚ)) : WithTop ℚ :=
  let s := sortK id l
  let n := s.length
  if n = 0 then ⊤
  else if n % 2 = 1 then s.getD (n / 2) ⊤
  else avg2 (s.getD (n / 2 - 1) ⊤) (s.getD (n / 2) ⊤)

/-- Embeds `measure_latency` (src/pools.py lines 75-115) as a function of
the attempt outcomes: the loop body appends the measured latency on
success and `float("inf")` on `socket.timeout`/`socket.error`, one entry
per attempt, and the median of the whole list is returned. -/
def measureLatency (outcomes : List (Option ℚ)) : WithTop ℚ :=
  pyMedian (outcomes.map (fun o =>
    match o with
    | some l => (l : WithTop ℚ)
    | none => ⊤))

/-! ## Arithmetic helper lemmas about step multiples and clamping -/

theorem Mult.sub_self {s x : ℚ} (h : Mult s x) : Mult s (x - s) := by
  obtain ⟨k, rfl⟩ := h
  exact ⟨k - 1, by push_cast; ring⟩

theorem Mult.add_self {s x : ℚ} (h : Mult s x) : Mult s (x + s) := by
  obtain ⟨k, rfl⟩ := h
  exact ⟨k + 1, by push_cast; ring⟩

theorem Mult.intMul (s : ℚ) (k : ℤ) : Mult s ((k : ℚ) * s) := ⟨k, rfl⟩

theorem Mult.min {s x y : ℚ} (hx : Mult s x) (hy : Mult s y) : Mult s (min x y) := by
  rcases min_choice x y with h | h <;> rw [h] <;> assumption

theorem Mult.max {s x y : ℚ} (hx : Mult s x) (hy : Mult s y) : Mult s (max x y) := by
  rcases max_choice x y with h | h <;> rw [h] <;> assumption

/-- Between two distinct multiples of a positive step lies at least one step. -/
theorem mult_le_sub_step {s a b : ℚ} (hs : 0 < s) (ha : Mult s a) (hb : Mult s b)
    (hlt : b < a) : b ≤ a - s := by
  obtain ⟨k, rfl⟩ := ha
  obtain ⟨m, rfl⟩ := hb
  have hmk : m < k := by
    have := (mul_lt_mul_right hs).mp hlt
    exact_mod_cast this
  have hm1 : (m : ℚ) ≤ (k : ℚ) - 1 := by
    have : m + 1 ≤ k := hmk
    have h2 : (m : ℚ) + 1 ≤ (k : ℚ) := by exact_mod_cast this
    linarith
  calc (m : ℚ) * s ≤ ((k : ℚ) - 1) * s := by
        exact mul_le_mul_of_nonneg_right hm1 hs.le
    _ = (k : ℚ) * s - s := by ring

theorem mult_add_step_le {s a b : ℚ} (hs : 0 < s) (ha : Mult s a) (hb : Mult s b)
    (hlt : a < b) : a + s ≤ b := by
  have := mult_le_sub_step hs hb ha hlt
  linarith

theorem clamp_mem {lo hi x : ℚ} (h : lo ≤ hi) :
    lo ≤ max lo (min hi x) ∧ max lo (min hi x) ≤ hi :=
  ⟨le_max_left _ _, max_le h (min_le_left _ _)⟩

/-! ## Helper lemmas about the stable insertion sort `sortK` -/

section SortLemmas

variable {α : Type _} {β : Type _} [LinearOrder β] (key : α → β)

theorem insertK_perm (x : α) (l : List α) :
    List.Perm (insertK key x l) (x :: l) := by
  induction l with
  | nil => exact List.Perm.refl _
  | cons h t ih =>
      by_cases hx : key x < key h
      · simp only [insertK, if_pos hx]
        exact List.Perm.refl _
      · simp only [insertK, if_neg hx]
        exact (List.Perm.cons h ih).trans (List.Perm.swap x h t)

theorem sortK_go_perm (l : List α) :
    ∀ acc : List α,
      List.Perm (l.foldl (fun a x => insertK key x a) acc) (acc ++ l) := by
  induction l with
  | nil => intro acc; simp
  | cons h t ih =>
      intro acc
      have h1 := ih (insertK key h acc)
      have h2 := (insertK_perm key h acc).append_right t
      have h3 : List.Perm ((h :: acc) ++ t) (acc ++ h :: t) := List.perm_middle.symm
      exact h1.trans (h2.trans h3)

theorem sortK_perm (l : List α) : List.Perm (sortK key l) l := by
  simpa using sortK_go_perm key l []

theorem mem_sortK {x : α} {l : List α} : x ∈ sortK key l ↔ x ∈ l :=
  (sortK_perm key l).mem_iff

theorem length_sortK (l : List α) : (sortK key l).length = l.length :=
  (sortK_perm key l).length_eq

theorem pairwise_insertK {x : α} {l : List α}
    (hl : List.Pairwise (fun a b => key a ≤ key b) l) :
    List.Pairwise (fun a b => key a ≤ key b) (insertK key x l) := by
  induction l with
  | nil => simp [insertK]
  | cons h t ih =>
      rcases List.pairwise_cons.mp hl with ⟨hht, ht⟩
      by_cases hx : key x < key h
      · simp only [insertK, if_pos hx]
        refine List.pairwise_cons.mpr ⟨?_, hl⟩
        intro b hb
        rcases List.mem_cons.mp hb with rfl | hb
        · exact hx.le
        · exact hx.le.trans (hht b hb)
      · simp only [insertK, if_neg hx]
        refine List.pairwise_cons.mpr ⟨?_, ih ht⟩
        intro b hb
        have hb2 := List.mem_cons.mp (((insertK_perm key x t).mem_iff).mp hb)
        rcases hb2 with rfl | hb2
        · exact le_of_not_lt hx
        · exact hht b hb2

theorem pairwise_sortK_go (l : List α) :
    ∀ acc : List α, List.Pairwise (fun a b => key a ≤ key b) acc →
      List.Pairwise (fun a b => key a ≤ key b)
        (l.foldl (fun a x => insertK key x a) acc) := by
  induction l with
  | nil => intro acc hacc; simpa using hacc
  | cons h t ih => intro acc hacc; exact ih _ (pairwise_insertK key hacc)

theorem pairwise_sortK (l : List α) :
    List.Pairwise (fun a b => key a ≤ key b) (sortK key l) :=
  pairwise_sortK_go key l [] List.Pairwise.nil

end SortLemmas

/-! ## Configuration defaults of src/bitaxepid.py (`DEFAULTS`, lines 58-80) -/

/-- The `PidParams` that `main` builds from the `DEFAULTS` dictionary of
src/bitaxepid.py: voltage 1100-1300 step 10, frequency 400-550 step 25,
hashrate setpoint 500, target temperature 45, power limit 15. -/
def defaultParams : PidParams := ⟨1100, 1300, 400, 550, 10, 25, 500, 45, 15⟩

/-! ## Claim theorems -/

/-- C10: the hardware gateway quantizes and clamps before sending:
`set_settings` sends and returns the frequency rounded to the nearest
multiple of `frequency_step` and then clamped to
`[min_frequency, max_frequency]`, and sends the voltage clamped to
`[min_voltage, max_voltage]`; both sent values are inside the envelope,
the returned frequency equals the sent frequency, and the sent frequency
is a multiple of the step whenever the bounds are.
`BitaxeTuner.set_system_settings` is the same computation at the
`DEFAULTS` constants of src/bitaxe.py. -/
theorem C10_set_settings_quantizes_and_clamps
    (minV maxV minF maxF fstep v f : ℚ) (hV : minV ≤ maxV) (hF : minF ≤ maxF) :
    (setSettings minV maxV minF maxF fstep v f).1 = max minV (min maxV v)
    ∧ minV ≤ (setSettings minV maxV minF maxF fstep v f).1
    ∧ (setSettings minV maxV minF maxF fstep v f).1 ≤ maxV
    ∧ (setSettings minV maxV minF maxF fstep v f).2.1
        = max minF (min maxF ((pyRound (f / fstep) : ℚ) * fstep))
    ∧ minF ≤ (setSettings minV maxV minF maxF fstep v f).2.1
    ∧ (setSettings minV maxV minF maxF fstep v f).2.1 ≤ maxF
    ∧ (setSettings minV maxV minF maxF fstep v f).2.2
        = (setSettings minV maxV minF maxF fstep v f).2.1
    ∧ (Mult fstep minF → Mult fstep maxF →
        Mult fstep (setSettings minV maxV minF maxF fstep v f).2.1)
    ∧ (∀ v2 f2 : ℚ, setSystemSettings v2 f2 =
        setSettings bxMinVoltage bxMaxVoltage bxMinFrequency bxMaxFrequency
          bxFrequencyStep v2 f2) := by
  refine ⟨rfl, le_max_left _ _, max_le hV (min_le_left _ _), rfl,
    le_max_left _ _, max_le hF (min_le_left _ _), rfl, ?_, fun v2 f2 => rfl⟩
  intro h1 h2
  exact Mult.max h1 (Mult.min h2 (Mult.intMul fstep _))

/-- Witness for C10 at the concrete envelope of src/bitaxe.py `DEFAULTS`
and the request voltage 1200 mV, frequency 483 MHz. -/
theorem C10_set_settings_quantizes_and_clamps_witness :
    (1100 : ℚ) ≤ 2400 ∧ (400 : ℚ) ≤ 550 ∧
    (400 : ℚ) ≤ (setSettings 1100 2400 400 550 25 1200 483).2.1 ∧
    (setSettings 1100 2400 400 550 25 1200 483).2.1 ≤ 550 ∧
    Mult 25 (setSettings 1100 2400 400 550 25 1200 483).2.1 := by
  have h := C10_set_settings_quantizes_and_clamps 1100 2400 400 550 25 1200 483
    (by norm_num) (by norm_num)
  exact ⟨by norm_num, by norm_num, h.2.2.2.2.1, h.2.2.2.2.2.1,
    h.2.2.2.2.2.2.2.1 ⟨16, by norm_num⟩ ⟨22, by norm_num⟩⟩

/-- C9 counterexample: `parse_endpoint` accepts an endpoint with an empty
hostname — `"stratum+tcp://:3333"` is parsed to `("", 3333)` instead of
being rejected, contradicting the claim that inputs with a missing
hostname raise an error and every accepted input has a non-empty
hostname. -/
theorem C9_empty_hostname_accepted_cex :
    parseEndpoint "stratum+tcp://:3333" = some ("", 3333) ∧ "".length = 0 := by
  exact ⟨by decide, rfl⟩

/-- C9 (amended): `parse_endpoint` rejects the input exactly when the
scheme-stripped string has no colon or the text after the first colon is
not a Python integer; on success it returns the (possibly empty) text
before the first colon together with the parsed port.  Hostname emptiness
is never checked, and only the literal scheme `stratum+tcp://` is
stripped. -/
theorem C9_parse_endpoint_rejects_only_missing_port (s : String) :
    ((parseEndpoint s).isSome = (hasColon s && (pyInt (portPart s)).isSome))
    ∧ (∀ h p, parseEndpoint s = some (h, p) →
        h = hostPart s ∧ pyInt (portPart s) = some p) := by
  constructor
  · by_cases hc : hasColon s
    · rw [parseEndpoint, if_pos hc, hc, Bool.true_and]
      cases pyInt (portPart s) <;> simp
    · rw [parseEndpoint, if_neg hc]
      simp only [Bool.not_eq_true] at hc
      rw [hc, Bool.false_and]
      rfl
  · intro h p hsp
    by_cases hc : hasColon s
    · rw [parseEndpoint, if_pos hc] at hsp
      cases hpi : pyInt (portPart s) with
      | none => rw [hpi] at hsp; exact Option.noConfusion hsp
      | some n =>
          rw [hpi] at hsp
          have hsp2 : (hostPart s, n) = (h, p) := Option.some.inj hsp
          have h1 : hostPart s = h := congrArg Prod.fst hsp2
          have h2 : n = p := congrArg Prod.snd hsp2
          exact ⟨h1.symm, congrArg some h2⟩
    · rw [parseEndpoint, if_neg hc] at hsp
      exact Option.noConfusion hsp

/-- Witness for C9 at the doctest input of `parse_endpoint`:
`"stratum+tcp://solo.ckpool.org:3333"` parses to
`("solo.ckpool.org", 3333)`. -/
theorem C9_parse_endpoint_rejects_only_missing_port_witness :
    "solo.ckpool.org" = hostPart "stratum+tcp://solo.ckpool.org:3333" ∧
    pyInt (portPart "stratum+tcp://solo.ckpool.org:3333") = some 3333 :=
  (C9_parse_endpoint_rejects_only_missing_port
    "stratum+tcp://solo.ckpool.org:3333").2 "solo.ckpool.org" 3333 (by decide)

/-- The clamp of a rounded proposal lies in `[lo, hi]` and is a step
multiple when both bounds are. -/
theorem quantClamp_mem_mult {lo hi : ℚ} (step q : ℚ) (hlh : lo ≤ hi)
    (hlo : Mult step lo) (hhi : Mult step hi) :
    lo ≤ quantClamp lo hi step q ∧ quantClamp lo hi step q ≤ hi ∧
      Mult step (quantClamp lo hi step q) :=
  ⟨le_max_left _ _, max_le hlh (min_le_left _ _),
    Mult.max hlo (Mult.min hhi (Mult.intMul step _))⟩

/-- Every branch of the decision pair stays inside a step-aligned envelope
when the input point and the PID proposals do. -/
theorem pidAdjustPair_invariant (p : PidParams) (dc : ℕ) (pv pf cv cf temp h pw : ℚ)
    (hvs : 0 < p.voltageStep) (hfs : 0 < p.frequencyStep)
    (hminV : Mult p.voltageStep p.minVoltage) (hmaxV : Mult p.voltageStep p.maxVoltage)
    (hminF : Mult p.frequencyStep p.minFrequency) (_hmaxF : Mult p.frequencyStep p.maxFrequency)
    (hpv1 : p.minVoltage ≤ pv) (hpv2 : pv ≤ p.maxVoltage) (hpvM : Mult p.voltageStep pv)
    (hpf1 : p.minFrequency ≤ pf) (hpf2 : pf ≤ p.maxFrequency) (hpfM : Mult p.frequencyStep pf)
    (hcvM : Mult p.voltageStep cv) (hcfM : Mult p.frequencyStep cf)
    (hcv1 : p.minVoltage ≤ cv) (hcv2 : cv ≤ p.maxVoltage)
    (hcf1 : p.minFrequency ≤ cf) (hcf2 : cf ≤ p.maxFrequency) :
    (p.minVoltage ≤ (pidAdjustPair p dc pv pf cv cf temp h pw).1
     ∧ (pidAdjustPair p dc pv pf cv cf temp h pw).1 ≤ p.maxVoltage
     ∧ Mult p.voltageStep (pidAdjustPair p dc pv pf cv cf temp h pw).1)
    ∧ (p.minFrequency ≤ (pidAdjustPair p dc pv pf cv cf temp h pw).2
     ∧ (pidAdjustPair p dc pv pf cv cf temp h pw).2 ≤ p.maxFrequency
     ∧ Mult p.frequencyStep (pidAdjustPair p dc pv pf cv cf temp h pw).2) := by
  unfold pidAdjustPair
  split_ifs with h1 h2 h3 h4 h5 h6 h7 h8 h9
  · exact ⟨⟨hcv1, hcv2, hcvM⟩, mult_le_sub_step hfs hcfM hminF h2,
      by (try dsimp only); linarith, hcfM.sub_self⟩
  · exact ⟨⟨mult_le_sub_step hvs hcvM hminV h3, by (try dsimp only); linarith,
      hcvM.sub_self⟩, hcf1, hcf2, hcfM⟩
  · exact ⟨⟨hcv1, hcv2, hcvM⟩, hcf1, hcf2, hcfM⟩
  · exact ⟨⟨mult_le_sub_step hvs hcvM hminV h5, by (try dsimp only); linarith,
      hcvM.sub_self⟩, hcf1, hcf2, hcfM⟩
  · exact ⟨⟨hcv1, hcv2, hcvM⟩, hcf1, hcf2, hcfM⟩
  · exact ⟨⟨hcv1, hcv2, hcvM⟩, mult_le_sub_step hfs hcfM hminF h7.2,
      by (try dsimp only); linarith, hcfM.sub_self⟩
  · exact ⟨⟨by (try dsimp only); linarith, mult_add_step_le hvs hcvM hmaxV h8.2,
      hcvM.add_self⟩, hpf1, hpf2, hpfM⟩
  · exact ⟨⟨le_min hpv1 (by linarith),
      le_trans (min_le_left _ _) hpv2, Mult.min hpvM hcvM.add_self⟩,
      hpf1, hpf2, hpfM⟩
  · exact ⟨⟨hcv1, hcv2, hcvM⟩, hpf1, hpf2, hpfM⟩
  · exact ⟨⟨hcv1, hcv2, hcvM⟩, hcf1, hcf2, hcfM⟩

/-- C1 counterexample: the decision step does not re-clamp the returned
pair.  With the `DEFAULTS` envelope of src/bitaxepid.py (voltage 1100-1300)
and a current voltage of 2000 mV, a stable cycle (temp 40 ≤ 45, power 10
within limit, hashrate 600 ≥ setpoint 500) returns the voltage 2000
unchanged, outside the envelope. -/
theorem C1_result_not_reclamped_cex :
    (pidAdjust defaultParams pidInitState 0 0 2000 500 40 600 10).2 = (2000, 500)
    ∧ defaultParams.maxVoltage = 1300 ∧ ¬ ((2000 : ℚ) ≤ 1300) := by
  refine ⟨?_, rfl, by norm_num⟩
  show pidAdjustPair defaultParams _ _ _ 2000 500 40 600 10 = (2000, 500)
  unfold pidAdjustPair
  norm_num [defaultParams]

/-- C1 (amended): the decision step preserves the envelope instead of
re-establishing it — whenever the steps are positive, all four envelope
bounds are step multiples, and the current operating point lies in the
envelope on step boundaries, the returned (voltage, frequency) pair again
satisfies `min ≤ v ≤ max` and is a step multiple on both axes, for every
telemetry input and every PID oracle output.  (An out-of-envelope or
unaligned current point is passed through unclamped, as the
counterexample shows.) -/
theorem C1_envelope_invariant_preserved (p : PidParams) (s : PidState)
    (fo vo cv cf temp h pw : ℚ)
    (hvs : 0 < p.voltageStep) (hfs : 0 < p.frequencyStep)
    (hminV : Mult p.voltageStep p.minVoltage) (hmaxV : Mult p.voltageStep p.maxVoltage)
    (hminF : Mult p.frequencyStep p.minFrequency) (hmaxF : Mult p.frequencyStep p.maxFrequency)
    (hcvM : Mult p.voltageStep cv) (hcfM : Mult p.frequencyStep cf)
    (hcv1 : p.minVoltage ≤ cv) (hcv2 : cv ≤ p.maxVoltage)
    (hcf1 : p.minFrequency ≤ cf) (hcf2 : cf ≤ p.maxFrequency) :
    (p.minVoltage ≤ (pidAdjust p s fo vo cv cf temp h pw).2.1
     ∧ (pidAdjust p s fo vo cv cf temp h pw).2.1 ≤ p.maxVoltage
     ∧ Mult p.voltageStep (pidAdjust p s fo vo cv cf temp h pw).2.1)
    ∧ (p.minFrequency ≤ (pidAdjust p s fo vo cv cf temp h pw).2.2
     ∧ (pidAdjust p s fo vo cv cf temp h pw).2.2 ≤ p.maxFrequency
     ∧ Mult p.frequencyStep (pidAdjust p s fo vo cv cf temp h pw).2.2) := by
  obtain ⟨hpv1, hpv2, hpvM⟩ :=
    quantClamp_mem_mult p.voltageStep vo (hcv1.trans hcv2) hminV hmaxV
  obtain ⟨hpf1, hpf2, hpfM⟩ :=
    quantClamp_mem_mult p.frequencyStep fo (hcf1.trans hcf2) hminF hmaxF
  exact pidAdjustPair_invariant p _ _ _ cv cf temp h pw hvs hfs
    hminV hmaxV hminF hmaxF hpv1 hpv2 hpvM hpf1 hpf2 hpfM
    hcvM hcfM hcv1 hcv2 hcf1 hcf2

/-- Witness for C1 (amended) at the `DEFAULTS` envelope, current point
(1200 mV, 500 MHz), stable telemetry. -/
theorem C1_envelope_invariant_preserved_witness :
    ((1100 : ℚ) ≤ (pidAdjust defaultParams pidInitState 0 0 1200 500 40 600 10).2.1
     ∧ (pidAdjust defaultParams pidInitState 0 0 1200 500 40 600 10).2.1 ≤ 1300
     ∧ Mult 10 (pidAdjust defaultParams pidInitState 0 0 1200 500 40 600 10).2.1)
    ∧ ((400 : ℚ) ≤ (pidAdjust defaultParams pidInitState 0 0 1200 500 40 600 10).2.2
     ∧ (pidAdjust defaultParams pidInitState 0 0 1200 500 40 600 10).2.2 ≤ 550
     ∧ Mult 25 (pidAdjust defaultParams pidInitState 0 0 1200 500 40 600 10).2.2) :=
  C1_envelope_invariant_preserved defaultParams pidInitState 0 0 1200 500 40 600 10
    (by norm_num [defaultParams]) (by norm_num [defaultParams])
    ⟨110, by norm_num [defaultParams]⟩ ⟨130, by norm_num [defaultParams]⟩
    ⟨16, by norm_num [defaultParams]⟩ ⟨22, by norm_num [defaultParams]⟩
    ⟨120, by norm_num [defaultParams]⟩ ⟨20, by norm_num [defaultParams]⟩
    (by norm_num [defaultParams]) (by norm_num [defaultParams])
    (by norm_num [defaultParams]) (by norm_num [defaultParams])

/-- C2: in the over-temperature branch neither axis is increased — the
returned frequency is at most the input frequency and the returned
voltage at most the input voltage (in particular when the frequency is
already at the floor) — and the two spec scenarios hold: with the
`DEFAULTS` envelope and target 45, temp 47 turns (1200 mV, 500 MHz) into
(1200 mV, 475 MHz) and (1150 mV, 400 MHz) into (1140 mV, 400 MHz), for
every controller state, PID output and remaining telemetry. -/
theorem C2_temp_branch_never_increases (p : PidParams) (s : PidState)
    (fo vo cv cf temp h pw : ℚ)
    (hfs : 0 ≤ p.frequencyStep) (hvs : 0 ≤ p.voltageStep)
    (ht : p.targetTemp < temp) :
    ((pidAdjust p s fo vo cv cf temp h pw).2.2 ≤ cf
     ∧ (pidAdjust p s fo vo cv cf temp h pw).2.1 ≤ cv)
    ∧ (∀ (s2 : PidState) (fo2 vo2 h2 pw2 : ℚ),
        (pidAdjust defaultParams s2 fo2 vo2 1200 500 47 h2 pw2).2 = (1200, 475))
    ∧ (∀ (s2 : PidState) (fo2 vo2 h2 pw2 : ℚ),
        (pidAdjust defaultParams s2 fo2 vo2 1150 400 47 h2 pw2).2 = (1140, 400)) := by
  refine ⟨?_, ?_, ?_⟩
  · have key : ∀ (dc : ℕ) (pv pf : ℚ),
        (pidAdjustPair p dc pv pf cv cf temp h pw).2 ≤ cf
        ∧ (pidAdjustPair p dc pv pf cv cf temp h pw).1 ≤ cv := by
      intro dc pv pf
      unfold pidAdjustPair
      rw [if_pos ht]
      split_ifs with h2 h3
      · exact ⟨by (try dsimp only); linarith, le_refl cv⟩
      · exact ⟨le_refl cf, by (try dsimp only); linarith⟩
      · exact ⟨le_refl cf, le_refl cv⟩
    exact key _ _ _
  · intro s2 fo2 vo2 h2 pw2
    simp only [pidAdjust]
    unfold pidAdjustPair
    norm_num [defaultParams]
  · intro s2 fo2 vo2 h2 pw2
    simp only [pidAdjust]
    unfold pidAdjustPair
    norm_num [defaultParams]

/-- Witness for C2 at the first spec scenario. -/
theorem C2_temp_branch_never_increases_witness :
    (pidAdjust defaultParams pidInitState 0 0 1200 500 47 500 10).2.2 ≤ 500
    ∧ (pidAdjust defaultParams pidInitState 0 0 1200 500 47 500 10).2.1 ≤ 1200 :=
  (C2_temp_branch_never_increases defaultParams pidInitState 0 0 1200 500 47 500 10
    (by norm_num [defaultParams]) (by norm_num [defaultParams])
    (by norm_num [defaultParams])).1

/-- C3 counterexample: in `BitaxeTuner._adjust_normal_mode` (src/bitaxe.py
lines 432-452) the power check precedes the temperature check.  With
target 45, power limit 15, temp 47 > 45, power 17 > 16.125 and the point
(1200 mV, 500 MHz) — frequency above its floor 400 — the step reduces the
voltage to 1190 (the power branch) and leaves the frequency at 500,
although the claim requires the temperature branch (a frequency
reduction, no voltage reduction). -/
theorem C3_power_branch_wins_in_bitaxe_cex :
    adjustNormalMode 45 15 450 none 0 0 0 0 1200 500 47 400 17
      = ⟨false, 0, 0, 1190, 500⟩
    ∧ ((45 : ℚ) < 47 ∧ (15 : ℚ) * (1075/1000) < 17 ∧ bxMinFrequency < 500) := by
  constructor
  · unfold adjustNormalMode bxAdjustPair
    norm_num [bxMinVoltage, bxMaxVoltage, bxMinFrequency, bxMaxFrequency,
      bxVoltageStep, bxFrequencyStep]
    simp
  · norm_num [bxMinFrequency]

/-- C3 (amended): in `PIDTuningStrategy` (src/bitaxepid.py,
src/implementations.py) the claim holds — when temp exceeds the target the
temperature branch runs (one frequency step down when above the floor),
the whole step is independent of the power reading, and a power-triggered
voltage reduction happens only when the temperature is within bound; in
src/bitaxe.py the power check comes first, per the counterexample. -/
theorem C3_temp_checked_before_power (p : PidParams) (s : PidState)
    (fo vo cv cf temp h pw : ℚ) :
    (p.targetTemp < temp → p.minFrequency < cf →
      (pidAdjust p s fo vo cv cf temp h pw).2 = (cv, cf - p.frequencyStep))
    ∧ (p.targetTemp < temp → ∀ pw2,
      pidAdjust p s fo vo cv cf temp h pw = pidAdjust p s fo vo cv cf temp h pw2)
    ∧ (temp ≤ p.targetTemp → p.powerLimit * (1075/1000) < pw →
      (pidAdjust p s fo vo cv cf temp h pw).2 =
        ((if p.minVoltage < cv then cv - p.voltageStep else cv), cf)) := by
  refine ⟨?_, ?_, ?_⟩
  · intro ht hf
    have key : ∀ (dc : ℕ) (pv pf : ℚ),
        pidAdjustPair p dc pv pf cv cf temp h pw = (cv, cf - p.frequencyStep) := by
      intro dc pv pf
      unfold pidAdjustPair
      rw [if_pos ht, if_pos hf]
    exact key _ _ _
  · intro ht pw2
    have key : ∀ (dc : ℕ) (pv pf : ℚ),
        pidAdjustPair p dc pv pf cv cf temp h pw
          = pidAdjustPair p dc pv pf cv cf temp h pw2 := by
      intro dc pv pf
      unfold pidAdjustPair
      rw [if_pos ht, if_pos ht]
    simp only [pidAdjust]
    rw [key]
  · intro ht hp
    have key : ∀ (dc : ℕ) (pv pf : ℚ),
        pidAdjustPair p dc pv pf cv cf temp h pw
          = ((if p.minVoltage < cv then cv - p.voltageStep else cv), cf) := by
      intro dc pv pf
      unfold pidAdjustPair
      rw [if_neg (not_lt.mpr ht), if_pos hp]
    exact key _ _ _

/-- Witness for C3 (amended): temp 47 with power 20 (over the 16.125
threshold) still takes the temperature branch, and temp 40 with power 20
reduces the voltage. -/
theorem C3_temp_checked_before_power_witness :
    (pidAdjust defaultParams pidInitState 0 0 1200 500 47 500 20).2
      = (1200, 500 - defaultParams.frequencyStep)
    ∧ (pidAdjust defaultParams pidInitState 0 0 1200 500 40 500 20).2
      = ((if defaultParams.minVoltage < 1200 then 1200 - defaultParams.voltageStep
          else 1200), 500) :=
  ⟨(C3_temp_checked_before_power defaultParams pidInitState 0 0 1200 500 47 500 20).1
      (by norm_num [defaultParams]) (by norm_num [defaultParams]),
   (C3_temp_checked_before_power defaultParams pidInitState 0 0 1200 500 40 500 20).2.2
      (by norm_num [defaultParams]) (by norm_num [defaultParams])⟩

/-- Auxiliary step for the C4 counterexample: one `PIDTuningStrategy.adjust`
decision with a constant hashrate reading of 500 on a stable cycle,
keeping only the updated controller state. -/
def pidStagStep (s : PidState) : PidState :=
  (pidAdjust defaultParams s 0 0 1200 500 40 500 10).1

/-- C4 counterexample: `PIDTuningStrategy` never clears its controllers
and never resets `stagnation_count` at a threshold.  Feeding five
identical hashrate readings, the counter runs 0, 1, 2, 3, 4 — it passes
the only threshold configured in the repository (3, in src/bitaxe.py)
without being reset to 0, and `adjust` contains no reset of the PID
accumulators at all. -/
theorem C4_no_threshold_reset_in_pid_strategy_cex :
    (pidStagStep (pidStagStep (pidStagStep (pidStagStep pidInitState)))).stagnationCount = 3
    ∧ (pidStagStep (pidStagStep (pidStagStep (pidStagStep
        (pidStagStep pidInitState))))).stagnationCount = 4 := by
  constructor <;> rfl

/-- C4 (amended): both decision steps increment `stagnation_count` exactly
when the new hashrate reading equals the previous one and reset it to 0
otherwise; the threshold behaviour exists only in
`BitaxeTuner._adjust_normal_mode` (threshold 3): there the PID controllers
are reset exactly when the incremented counter reaches 3, the counter is
then zeroed, and from any reachable counter value (≤ 2) this happens
exactly once per crossing, the counter staying ≤ 2.
`PIDTuningStrategy.adjust` merely counts and never resets its PID
controllers (see the counterexample). -/
theorem C4_stagnation_counting_and_reset (p : PidParams) (s : PidState)
    (fo vo cv cf temp h pw : ℚ)
    (tt pl sp : ℚ) (lh : Option ℚ) (sc dc : ℕ) (fo2 vo2 cv2 cf2 temp2 h2 pw2 : ℚ) :
    ((pidAdjust p s fo vo cv cf temp h pw).1.stagnationCount
       = if s.lastHashrate = some h then s.stagnationCount + 1 else 0)
    ∧ ((pidAdjust p s fo vo cv cf temp h pw).1.lastHashrate = some h)
    ∧ ((adjustNormalMode tt pl sp lh sc dc fo2 vo2 cv2 cf2 temp2 h2 pw2).pidWasReset = true
        ↔ (lh = some h2 ∧ 3 ≤ sc + 1))
    ∧ ((adjustNormalMode tt pl sp lh sc dc fo2 vo2 cv2 cf2 temp2 h2 pw2).stagnationCount
        = if lh = some h2 then (if 3 ≤ sc + 1 then 0 else sc + 1) else 0)
    ∧ (sc ≤ 2 →
        (((adjustNormalMode tt pl sp lh sc dc fo2 vo2 cv2 cf2 temp2 h2 pw2).pidWasReset = true
           ↔ (lh = some h2 ∧ sc = 2))
         ∧ (adjustNormalMode tt pl sp lh sc dc fo2 vo2 cv2 cf2 temp2 h2 pw2).stagnationCount ≤ 2)) := by
  have hreset : (adjustNormalMode tt pl sp lh sc dc fo2 vo2 cv2 cf2 temp2 h2 pw2).pidWasReset
      = decide (3 ≤ (if lh = some h2 then sc + 1 else 0)) := rfl
  have hstag : (adjustNormalMode tt pl sp lh sc dc fo2 vo2 cv2 cf2 temp2 h2 pw2).stagnationCount
      = if (decide (3 ≤ (if lh = some h2 then sc + 1 else 0)) : Bool)
          then 0 else (if lh = some h2 then sc + 1 else 0) := rfl
  have hiff : (adjustNormalMode tt pl sp lh sc dc fo2 vo2 cv2 cf2 temp2 h2 pw2).pidWasReset = true
      ↔ (lh = some h2 ∧ 3 ≤ sc + 1) := by
    rw [hreset, decide_eq_true_iff]
    by_cases hst : lh = some h2
    · simp [hst]
    · simp [hst]
  have hcount : (adjustNormalMode tt pl sp lh sc dc fo2 vo2 cv2 cf2 temp2 h2 pw2).stagnationCount
      = if lh = some h2 then (if 3 ≤ sc + 1 then 0 else sc + 1) else 0 := by
    rw [hstag]
    by_cases hst : lh = some h2
    · by_cases h3 : 3 ≤ sc + 1
      · simp [hst, h3]
      · simp [hst, h3]
    · simp [hst]
  refine ⟨rfl, rfl, hiff, hcount, ?_⟩
  intro hsc2
  constructor
  · rw [hiff]
    constructor
    · rintro ⟨h1, h2⟩
      exact ⟨h1, by omega⟩
    · rintro ⟨h1, h2⟩
      exact ⟨h1, by omega⟩
  · rw [hcount]
    split_ifs <;> omega

/-- Witness for C4 at the bitaxe.py defaults: third identical reading of
100 GH/s from counter value 2 resets the PID controllers and zeroes the
counter. -/
theorem C4_stagnation_counting_and_reset_witness :
    ((adjustNormalMode 45 15 450 (some 100) 2 0 0 0 1200 500 40 100 10).pidWasReset = true
      ↔ ((some (100:ℚ) = some 100) ∧ (2:ℕ) = 2))
    ∧ (adjustNormalMode 45 15 450 (some 100) 2 0 0 0 1200 500 40 100 10).stagnationCount ≤ 2 :=
  (C4_stagnation_counting_and_reset defaultParams pidInitState 0 0 1200 500 40 100 10
    45 15 450 (some 100) 2 0 0 0 1200 500 40 100 10).2.2.2.2 (by norm_num)

/-! ## Helper lemmas about `selectPools` -/

theorem selectPools_of_filter_nil (pools : List PoolRow)
    (su fsu : Option String) (cfg : UserConfig)
    (hv : pools.filter isFiniteRow = []) : selectPools pools su fsu cfg = [] := by
  unfold selectPools
  rw [hv]
  rfl

theorem selectPools_ne_nil (pools : List PoolRow)
    (su fsu : Option String) (cfg : UserConfig)
    (h : ∃ r ∈ pools, isFiniteRow r = true) : selectPools pools su fsu cfg ≠ [] := by
  obtain ⟨r, hr, hfin⟩ := h
  have hmem : r ∈ pools.filter isFiniteRow := List.mem_filter.mpr ⟨hr, hfin⟩
  have hne : pools.filter isFiniteRow ≠ [] := List.ne_nil_of_mem hmem
  unfold selectPools
  rcases hsk : sortK latKey (pools.filter isFiniteRow) with _ | ⟨x, _ | ⟨y, t⟩⟩
  · exfalso
    apply hne
    have hlen := length_sortK latKey (pools.filter isFiniteRow)
    rw [hsk] at hlen
    exact List.length_eq_zero.mp hlen.symm
  · simp
  · simp

theorem selectPools_mem_fst {pools : List PoolRow} {su fsu : Option String}
    {cfg : UserConfig} {pr : PoolRow × String}
    (hpr : pr ∈ selectPools pools su fsu cfg) :
    pr.1 ∈ pools.filter isFiniteRow := by
  unfold selectPools at hpr
  rcases hsk : sortK latKey (pools.filter isFiniteRow) with _ | ⟨x, _ | ⟨y, t⟩⟩
  · rw [hsk] at hpr
    simp at hpr
  · rw [hsk] at hpr
    have hx : x ∈ pools.filter isFiniteRow := by
      rw [← mem_sortK latKey, hsk]
      exact List.mem_cons_self x []
    simp only [List.take, List.mem_cons, List.not_mem_nil, or_false] at hpr
    rcases hpr with h1 | h1 <;> rw [h1]
    · exact hx
    · exact hx
  · rw [hsk] at hpr
    have hx : x ∈ pools.filter isFiniteRow := by
      rw [← mem_sortK latKey, hsk]
      exact List.mem_cons_self x (y :: t)
    have hy : y ∈ pools.filter isFiniteRow := by
      rw [← mem_sortK latKey, hsk]
      exact List.mem_cons_of_mem x (List.mem_cons_self y t)
    simp only [List.take, List.mem_cons, List.not_mem_nil, or_false] at hpr
    rcases hpr with h1 | h1 <;> rw [h1]
    · exact hx
    · exact hy

theorem resolvedUsers_formula (su fsu : Option String) (cfg : UserConfig) :
    resolvedUsers su fsu cfg =
      (su.getD (cfg.stratumUser.getD ""),
       fsu.getD (cfg.fallbackStratumUser.getD (cfg.stratumUser.getD ""))) := by
  cases su <;> cases fsu <;> simp [resolvedUsers]

theorem selectPools_users (pools : List PoolRow) (su fsu : Option String)
    (cfg : UserConfig) :
    selectPools pools su fsu cfg = []
    ∨ (selectPools pools su fsu cfg).map Prod.snd =
        [su.getD (cfg.stratumUser.getD ""),
         fsu.getD (cfg.fallbackStratumUser.getD (cfg.stratumUser.getD ""))] := by
  unfold selectPools
  rcases hsk : sortK latKey (pools.filter isFiniteRow) with _ | ⟨x, _ | ⟨y, t⟩⟩
  · exact Or.inl rfl
  · exact Or.inr (by simp [resolvedUsers_formula])
  · exact Or.inr (by simp [resolvedUsers_formula])

/-- C7: the selector never returns an infinite-latency row when a
finite-latency row exists (on the pool list in force at selection time,
src/pools.py line 263): with at least one finite-latency row the result is
non-empty and every returned row has finite cached latency; with exactly
one finite-latency row the result has two entries whose pool row is that
single row (the backup duplicates the primary); with none the result is
empty. -/
theorem C7_selector_never_returns_infinite (pools : List PoolRow)
    (su fsu : Option String) (cfg : UserConfig) :
    ((∃ r ∈ pools, isFiniteRow r = true) → selectPools pools su fsu cfg ≠ [])
    ∧ (∀ pr ∈ selectPools pools su fsu cfg, isFiniteRow pr.1 = true)
    ∧ (∀ x, pools.filter isFiniteRow = [x] →
        ∃ u0 u1, selectPools pools su fsu cfg = [(x, u0), (x, u1)])
    ∧ (pools.filter isFiniteRow = [] → selectPools pools su fsu cfg = []) := by
  refine ⟨selectPools_ne_nil pools su fsu cfg,
    fun pr hpr => (List.mem_filter.mp (selectPools_mem_fst hpr)).2,
    ?_, selectPools_of_filter_nil pools su fsu cfg⟩
  intro x hx
  unfold selectPools
  rw [hx]
  exact ⟨_, _, rfl⟩

/-- Sole valid row used by the C7 witness. -/
def c7Row : PoolRow := ⟨"w.example:3333", some ((40 : ℚ) : WithTop ℚ), some 0⟩

/-- Witness for C7: a catalog whose only row has finite latency yields a
non-empty selection duplicating that row. -/
theorem C7_selector_never_returns_infinite_witness :
    selectPools [c7Row] none none ⟨none, none⟩ ≠ []
    ∧ ∃ u0 u1, selectPools [c7Row] none none ⟨none, none⟩ = [(c7Row, u0), (c7Row, u1)] :=
  ⟨(C7_selector_never_returns_infinite [c7Row] none none ⟨none, none⟩).1
      ⟨c7Row, List.mem_cons_self c7Row [], by decide⟩,
   (C7_selector_never_returns_infinite [c7Row] none none ⟨none, none⟩).2.2.1
      c7Row (by decide)⟩

/-- Row with finite latency used by the C8 counterexample. -/
def c8Row : PoolRow := ⟨"p.example:3333", some ((30 : ℚ) : WithTop ℚ), some 0⟩

/-- C8 counterexample: with no explicit users and an empty user file, both
resolved users are the empty string, yet the selection is returned as a
two-entry assignment instead of being rejected. -/
theorem C8_empty_users_not_rejected_cex :
    selectPools [c8Row] none none ⟨none, none⟩ = [(c8Row, ""), (c8Row, "")]
    ∧ selectPools [c8Row] none none ⟨none, none⟩ ≠ [] := by
  constructor
  · decide
  · decide

/-- C8 (amended): the resolved users follow the claimed precedence — an
explicitly supplied user wins, otherwise the user-file default applies,
the backup default falling back to the primary default — but an empty
resolved user is never rejected: whenever a finite-latency row exists the
selection is returned (non-empty) with exactly those resolved users
attached, empty or not. -/
theorem C8_users_resolved_never_rejected (pools : List PoolRow)
    (su fsu : Option String) (cfg : UserConfig) :
    ((∃ r ∈ pools, isFiniteRow r = true) →
      (selectPools pools su fsu cfg ≠ []
       ∧ (selectPools pools su fsu cfg).map Prod.snd =
          [su.getD (cfg.stratumUser.getD ""),
           fsu.getD (cfg.fallbackStratumUser.getD (cfg.stratumUser.getD ""))])) := by
  intro h
  have hne := selectPools_ne_nil pools su fsu cfg h
  rcases selectPools_users pools su fsu cfg with hnil | husers
  · exact absurd hnil hne
  · exact ⟨hne, husers⟩

/-- Witness for C8: an explicit primary user "alice" with a user-file
fallback "bob". -/
theorem C8_users_resolved_never_rejected_witness :
    selectPools [c8Row] (some "alice") none ⟨some "carol", some "bob"⟩ ≠ []
    ∧ (selectPools [c8Row] (some "alice") none ⟨some "carol", some "bob"⟩).map Prod.snd
        = ["alice", "bob"] :=
  C8_users_resolved_never_rejected [c8Row] (some "alice") none ⟨some "carol", some "bob"⟩
    ⟨c8Row, List.mem_cons_self c8Row [], by decide⟩

/-- Catalog rows of the C5 scenario: A and B fresh (tested one minute
before `now = 1000000` with a 15-minute expiry), C's "last_tested" field
missing (stale), C2 a fresh variant of C. -/
def c5RowA : PoolRow := ⟨"a.example:3333", some ((40 : ℚ) : WithTop ℚ), some 999940⟩

def c5RowB : PoolRow := ⟨"b.example:3333", some ((25 : ℚ) : WithTop ℚ), some 999940⟩

def c5RowCstale : PoolRow := ⟨"c.example:3333", some ((100 : ℚ) : WithTop ℚ), none⟩

def c5RowCfresh : PoolRow := ⟨"c.example:3333", some ((100 : ℚ) : WithTop ℚ), some 999940⟩

/-- C5 counterexample: in the claimed scenario — rows A (40 ms, fresh) and
B (25 ms, fresh), row C stale, `force=false` — `get_fastest_pools` does
invoke the prober (`measure_pools` runs, first component `true`): one
stale row triggers a full remeasurement even though two rows are fresh,
contradicting the claimed probe-free return. -/
theorem C5_two_fresh_rows_do_not_suppress_probing_cex :
    (getFastestPools (fun _ _ => ⊤) 1000000 15 false [c5RowA, c5RowB, c5RowCstale]
        (some "u") (some "u2") ⟨none, none⟩).1 = true
    ∧ isStale 1000000 15 c5RowA = false
    ∧ isStale 1000000 15 c5RowB = false
    ∧ isStale 1000000 15 c5RowCstale = true := by
  refine ⟨?_, ?_, ?_, ?_⟩
  · norm_num [getFastestPools, isStale, c5RowA, c5RowB, c5RowCstale]
  · norm_num [isStale, c5RowA]
  · norm_num [isStale, c5RowB]
  · norm_num [isStale, c5RowCstale]

/-- C5 (amended): with `force=false` the prober is invoked exactly when
some row of the catalog is stale — two fresh rows do not suffice, every
row must be fresh — and on an all-fresh catalog the selection is the two
lowest-latency rows in ascending order, returned from cache: in the
scenario with row C fresh as well, the result is (B, A) and no probing
happens, for every prober oracle. -/
theorem C5_selection_from_cache_iff_all_fresh
    (probe : String → ℤ → WithTop ℚ) (now expiry : ℚ) (rows : List PoolRow)
    (su fsu : Option String) (cfg : UserConfig) :
    ((getFastestPools probe now expiry false rows su fsu cfg).1
       = rows.any (fun r => isStale now expiry r))
    ∧ (∀ probe2 : String → ℤ → WithTop ℚ,
        getFastestPools probe2 1000000 15 false [c5RowA, c5RowB, c5RowCfresh]
          (some "u") (some "u2") ⟨none, none⟩
        = (false, [(c5RowB, "u"), (c5RowA, "u2")])) := by
  constructor
  · simp [getFastestPools]
  · intro probe2
    have hfresh : [c5RowA, c5RowB, c5RowCfresh].any
        (fun r => isStale 1000000 15 r) = false := by
      norm_num [isStale, c5RowA, c5RowB, c5RowCfresh]
    unfold getFastestPools
    rw [Bool.false_or, hfresh]
    dsimp only
    rw [if_neg (by decide : ¬ (false = true))]
    decide

/-! ## Helper lemmas about `pyMedian` -/

theorem avg2_eq_top (a b : WithTop ℚ) : avg2 a b = ⊤ ↔ a = ⊤ ∨ b = ⊤ := by
  unfold avg2
  split_ifs with h
  · simp [h]
  · simp [h, WithTop.coe_ne_top]

theorem getD_top_of_all_top {l : List (WithTop ℚ)} (hl : ∀ x ∈ l, x = ⊤) (i : ℕ) :
    l.getD i ⊤ = ⊤ := by
  induction l generalizing i with
  | nil => simp
  | cons h t ih =>
      cases i with
      | zero => simpa using hl h (List.mem_cons_self h t)
      | succ j =>
          simp only [List.getD_cons_succ]
          exact ih (fun x hx => hl x (List.mem_cons_of_mem h hx)) j

/-- In an ascending list of latencies the infinite entries form a suffix:
position `i` holds `⊤` exactly when `i` lies past the finite entries. -/
theorem sorted_top_suffix (s : List (WithTop ℚ))
    (hs : List.Pairwise (fun a b : WithTop ℚ => a ≤ b) s) (i : ℕ) :
    s.getD i ⊤ = ⊤ ↔ s.length - s.count ⊤ ≤ i := by
  induction s generalizing i with
  | nil => simp
  | cons h t ih =>
      rcases List.pairwise_cons.mp hs with ⟨hht, ht⟩
      by_cases hh : h = ⊤
      · have htall : ∀ x ∈ t, x = ⊤ := fun x hx => top_le_iff.mp (hh ▸ hht x hx)
        have hcnt : (h :: t).count ⊤ = (h :: t).length := by
          rw [List.count_eq_length]
          intro b hb
          rcases List.mem_cons.mp hb with rfl | hb
          · exact hh.symm
          · exact (htall b hb).symm
        rw [hcnt, Nat.sub_self]
        simp only [Nat.zero_le, iff_true]
        refine getD_top_of_all_top ?_ i
        intro x hx
        rcases List.mem_cons.mp hx with rfl | hx
        · exact hh
        · exact htall x hx
      · have hcnt : (h :: t).count ⊤ = t.count ⊤ := by
          simp [List.count_cons, hh]
        have hcle : t.count ⊤ ≤ t.length := List.count_le_length _ _
        cases i with
        | zero =>
            simp only [List.getD_cons_zero, List.length_cons]
            rw [hcnt]
            constructor
            · intro h0
              exact absurd h0 hh
            · intro h0
              exact absurd h0 (by omega)
        | succ j =>
            simp only [List.getD_cons_succ, List.length_cons]
            rw [hcnt, ih ht]
            constructor
            · intro h0
              omega
            · intro h0
              omega

theorem count_top_map_outcomes (outcomes : List (Option ℚ)) :
    (outcomes.map (fun o => match o with
      | some l => (l : WithTop ℚ)
      | none => ⊤)).count ⊤ = outcomes.count none := by
  induction outcomes with
  | nil => rfl
  | cons o t ih =>
      cases o with
      | none => simp [ih]
      | some l => simp [ih, WithTop.coe_ne_top]

/-- C6 counterexample: five attempts of which two succeed (10 ms and
12 ms) and three fail still yield an infinite median — the failed
attempts are recorded as `∞` samples and dominate the median, although
the claim says `∞` is returned only when zero attempts succeed. -/
theorem C6_failures_dominate_median_cex :
    measureLatency [none, none, none, some 10, some 12] = ⊤
    ∧ List.count (none : Option ℚ) [none, none, none, some 10, some 12] = 3
    ∧ List.length [(none : Option ℚ), none, none, some 10, some 12] = 5 := by
  refine ⟨by decide, by decide, by decide⟩

/-- C6 (amended): `measure_latency` performs its N attempts and records a
sample for every attempt — `∞` for a failed one — and returns the median
of all N samples; the result is `∞` if and only if at least `⌈N/2⌉`
(`N - N/2`) of the attempts failed.  In particular the result is `∞`
whenever zero attempts succeed, but a failing near-majority with at least
one success can also produce `∞`. -/
theorem C6_median_infinite_iff_majority_failed (outcomes : List (Option ℚ)) :
    (measureLatency outcomes = ⊤ ↔
      outcomes.length - outcomes.length / 2 ≤ outcomes.count none)
    ∧ (outcomes.count none = outcomes.length → measureLatency outcomes = ⊤) := by
  have hmain : measureLatency outcomes = ⊤ ↔
      outcomes.length - outcomes.length / 2 ≤ outcomes.count none := by
    unfold measureLatency pyMedian
    dsimp only
    have hlen : (outcomes.map (fun o => match o with
        | some l => (l : WithTop ℚ)
        | none => ⊤)).length = outcomes.length := List.length_map _ _
    have hsort := pairwise_sortK (id : WithTop ℚ → WithTop ℚ)
      (outcomes.map (fun o => match o with
        | some l => (l : WithTop ℚ)
        | none => ⊤))
    have hslen := length_sortK (id : WithTop ℚ → WithTop ℚ)
      (outcomes.map (fun o => match o with
        | some l => (l : WithTop ℚ)
        | none => ⊤))
    have hscnt := (sortK_perm (id : WithTop ℚ → WithTop ℚ)
      (outcomes.map (fun o => match o with
        | some l => (l : WithTop ℚ)
        | none => ⊤))).count_eq (⊤ : WithTop ℚ)
    rw [count_top_map_outcomes] at hscnt
    rw [hlen] at hslen
    have hcle : outcomes.count none ≤ outcomes.length := by
      rw [← hscnt, ← hslen]
      exact List.count_le_length _ _
    split_ifs with h0 hodd
    · constructor
      · intro
        omega
      · intro
        rfl
    · rw [hslen] at h0 ⊢
      rw [sorted_top_suffix _ hsort, hslen, hscnt]
      constructor
      · intro h1
        omega
      · intro h1
        omega
    · rw [hslen] at h0 hodd ⊢
      rw [avg2_eq_top, sorted_top_suffix _ hsort, sorted_top_suffix _ hsort,
        hslen, hscnt]
      constructor
      · intro h1
        rcases h1 with h1 | h1 <;> omega
      · intro h1
        right
        omega
  exact ⟨hmain, fun hall => hmain.mpr (by omega)⟩

/-- Witness for C6 at two failed attempts out of two: the median is `∞`. -/
theorem C6_median_infinite_iff_majority_failed_witness :
    measureLatency [none, none] = ⊤ :=
  (C6_median_infinite_iff_majority_failed [none, none]).2 (by decide)

end BitaxePID
